import Mathlib

/-!
Verification of the gojsonnet Rust binding (src/lib.rs): a thin wrapper
marshalling values and callbacks between Rust and the go-jsonnet C API.
The wrapper code is embedded faithfully; the external go-jsonnet
interpreter itself, which is not part of this repository, is modelled
from the specification where a property depends on it.
-/

set_option linter.unusedVariables false

namespace GojsonnetRs

/-! ## JSON values

Model of serde_json JSON values.  Numbers are modelled as integers
(the binding passes them through as IEEE doubles without arithmetic,
so no claim depends on float behaviour).  Arrays and object field
lists are mutual inductives so that structural recursion and induction
stay elementary. -/

mutual

inductive JsonValue : Type where
  | null : JsonValue
  | bool (b : Bool) : JsonValue
  | num (n : Int) : JsonValue
  | str (s : String) : JsonValue
  | arr (xs : JsonList) : JsonValue
  | obj (fs : JsonFields) : JsonValue

inductive JsonList : Type where
  | nil : JsonList
  | cons (v : JsonValue) (tl : JsonList) : JsonList

inductive JsonFields : Type where
  | nil : JsonFields
  | cons (k : String) (v : JsonValue) (tl : JsonFields) : JsonFields

end

/-! ## NUL handling -/

def nulChar : Char := Char.ofNat 0

/-- Whether a string contains an interior NUL byte, the exact condition
under which `std::ffi::CString::new` fails (with a `NulError`, or a
panic where the source unwraps it). -/
def hasNul (s : String) : Bool := decide (nulChar ∈ s.data)

/-- The opaque foreign JsonnetJsonValue handle, identified with the JSON
value it denotes: the binding only observes it through the extraction
API modelled below, and only builds it through the make/append API, so
the identification is faithful. -/
abbrev JsonnetJsonValue := JsonValue

/-! ## Foreign value API

Modelled from the spec: the host-boundary value API of the external
interpreter (declared in gojsonnet-sys, implemented in go-jsonnet,
not in src/).  Extraction returns a tag or a payload per JSON kind;
make/append construct values. -/

def jsonnet_json_extract_null (v : JsonnetJsonValue) : Int :=
  match v with
  | .null => 1
  | _ => 0

def jsonnet_json_extract_bool (v : JsonnetJsonValue) : Int :=
  match v with
  | .bool false => 0
  | .bool true => 1
  | _ => 2

def jsonnet_json_extract_number (v : JsonnetJsonValue) : Option Int :=
  match v with
  | .num n => some n
  | _ => none

def jsonnet_json_extract_string (v : JsonnetJsonValue) : Option String :=
  match v with
  | .str s => some s
  | _ => none

def jsonnet_json_make_null : JsonnetJsonValue := JsonValue.null

def jsonnet_json_make_bool (b : Bool) : JsonnetJsonValue := JsonValue.bool b

def jsonnet_json_make_number (n : Int) : JsonnetJsonValue := JsonValue.num n

def jsonnet_json_make_string (s : String) : JsonnetJsonValue := JsonValue.str s

def jsonnet_json_make_array : JsonnetJsonValue := JsonValue.arr .nil

def jsonnet_json_make_object : JsonnetJsonValue := JsonValue.obj .nil

def JsonList.snoc (xs : JsonList) (v : JsonValue) : JsonList :=
  match xs with
  | .nil => .cons v .nil
  | .cons w tl => .cons w (tl.snoc v)

def JsonFields.snoc (fs : JsonFields) (k : String) (v : JsonValue) : JsonFields :=
  match fs with
  | .nil => .cons k v .nil
  | .cons k0 v0 tl => .cons k0 v0 (tl.snoc k v)

def jsonnet_json_array_append (a : JsonnetJsonValue) (v : JsonnetJsonValue) :
    JsonnetJsonValue :=
  match a with
  | .arr xs => .arr (xs.snoc v)
  | other => other

def jsonnet_json_object_append (o : JsonnetJsonValue) (k : String)
    (v : JsonnetJsonValue) : JsonnetJsonValue :=
  match o with
  | .obj fs => .obj (fs.snoc k v)
  | other => other

/-! ## Value conversion (src/lib.rs) -/

/-- Embedding of `from_gojsonnet_value` (src/lib.rs lines 91-116): try
null, bool, number, string extraction in that order; any other value
(array, object) reaches the final `panic!`, modelled as `none`. -/
def from_gojsonnet_value (v : JsonnetJsonValue) : Option JsonValue :=
  if jsonnet_json_extract_null v ≠ 0 then
    some JsonValue.null
  else
    let b := jsonnet_json_extract_bool v
    if b = 0 then
      some (JsonValue.bool false)
    else if b = 1 then
      some (JsonValue.bool true)
    else
      match jsonnet_json_extract_number v with
      | some n => some (JsonValue.num n)
      | none =>
        match jsonnet_json_extract_string v with
        | some s => some (JsonValue.str s)
        | none => none

mutual

/-- Embedding of `from_serde_json_value` (src/lib.rs lines 56-89):
convert a serde_json value into a foreign value through the make/append
API.  The source calls `CString::new(..).unwrap()` on every string
payload (line 67) and on every object key (line 82); the unwrap panics
on an interior NUL byte, modelled as `none`. -/
def from_serde_json_value : JsonValue → Option JsonnetJsonValue
  | .null => some jsonnet_json_make_null
  | .bool b => some (jsonnet_json_make_bool b)
  | .num n => some (jsonnet_json_make_number n)
  | .str s =>
      if hasNul s then none
      else some (jsonnet_json_make_string s)
  | .arr xs => appendArrayElems jsonnet_json_make_array xs
  | .obj fs => appendObjectFields jsonnet_json_make_object fs

/-- The `for e in v` append loop of the Array case of
`from_serde_json_value`; a panic while converting an element
propagates. -/
def appendArrayElems (acc : JsonnetJsonValue) :
    JsonList → Option JsonnetJsonValue
  | .nil => some acc
  | .cons v tl =>
      match from_serde_json_value v with
      | none => none
      | some gv => appendArrayElems (jsonnet_json_array_append acc gv) tl

/-- The `for (k, v) in m` append loop of the Object case of
`from_serde_json_value`: the key is converted by
`CString::new(k).unwrap()` (panics on interior NUL) before the value is
converted, matching the argument order of the source call. -/
def appendObjectFields (acc : JsonnetJsonValue) :
    JsonFields → Option JsonnetJsonValue
  | .nil => some acc
  | .cons k v tl =>
      if hasNul k then none
      else
        match from_serde_json_value v with
        | none => none
        | some gv => appendObjectFields (jsonnet_json_object_append acc k gv) tl

end

/-! ## Native callback bridge (src/lib.rs) -/

/-- The Rust-side native callback type: a vector of JSON arguments to an
optional JSON result (`None` means failure). -/
abbrev NativeCallback := List JsonValue → Option JsonValue

/-- Embedding of `NativeCallbackHolder` (src/lib.rs lines 29-34); the
`vm` pointer field is dropped, it is only forwarded to the conversion
API calls. -/
structure NativeCallbackHolder : Type where
  callback : NativeCallback
  argc : Nat

/-- Embedding of `native_callback_bridge` (src/lib.rs lines 35-54).
The C out-parameter `success` is modelled in-out: the argument is its
value on entry, the second component of the result is its value on
return.  `none` models a Rust panic — from `from_gojsonnet_value` on a
composite argument, or from `from_serde_json_value` on a callback
result with an interior NUL in a string or object key (the panic aborts
before a value crosses the boundary, so the flag write preceding it is
unobservable).  The source reads exactly `argc` argument pointers,
modelled by `take holder.argc`. -/
def native_callback_bridge (holder : NativeCallbackHolder)
    (argv_c : List JsonnetJsonValue) (success : Int) :
    Option (JsonnetJsonValue × Int) :=
  match (argv_c.take holder.argc).mapM from_gojsonnet_value with
  | none => none
  | some argv =>
    match holder.callback argv with
    | some result =>
      match from_serde_json_value result with
      | none => none
      | some gv => some (gv, 1)
    | none => some (jsonnet_json_make_null, success)

/-! ## Errors (src/lib.rs lines 8-25) -/

/-- Embedding of the `Error` enum: `GoJsonnetError { message }`,
`NulError` (from `std::ffi::CString::new`), `SerdeError`.  The payloads
of the latter two are reduced to the information the claims mention. -/
inductive Error : Type where
  | goJsonnetError (message : String) : Error
  | nulError : Error
  | serdeError (inner : String) : Error
deriving DecidableEq

/-- The discriminant of the `Error` enum: the only kind information the
returned error carries. -/
inductive ErrorKind : Type where
  | goJsonnet : ErrorKind
  | nul : ErrorKind
  | serde : ErrorKind
deriving DecidableEq

def Error.kind : Error → ErrorKind
  | .goJsonnetError _ => .goJsonnet
  | .nulError => .nul
  | .serdeError _ => .serde

/-! ## Association lists

The Rust `HashMap<String, *mut NativeCallbackHolder>` and the set of
live `Box` allocations are modelled as association lists; `Box::into_raw`
is modelled as tagging the holder with a fresh id. -/

def alist_lookup {κ α : Type} [DecidableEq κ] (k : κ) :
    List (κ × α) → Option α
  | [] => none
  | p :: tl => if p.1 = k then some p.2 else alist_lookup k tl

/-- `HashMap::insert`: replace the binding of `k` if present (returning
the old value), otherwise add a new binding. -/
def alist_insert {κ α : Type} [DecidableEq κ] (k : κ) (v : α) :
    List (κ × α) → List (κ × α) × Option α
  | [] => ([(k, v)], none)
  | p :: tl =>
    if p.1 = k then ((k, v) :: tl, some p.2)
    else
      let r := alist_insert k v tl
      (p :: r.1, r.2)

/-- Remove the first binding of `k` (`Box::from_raw` + drop frees the
single allocation with that address). -/
def alist_erase {κ α : Type} [DecidableEq κ] (k : κ) :
    List (κ × α) → List (κ × α)
  | [] => []
  | p :: tl => if p.1 = k then tl else p :: alist_erase k tl

/-! ## The Vm (src/lib.rs) -/

/-- An external-variable or top-level-argument binding installed in the
foreign VM: `jsonnet_ext_var`/`jsonnet_tla_var` bind a literal string,
`jsonnet_ext_code`/`jsonnet_tla_code` bind code to be evaluated. -/
inductive ExtBinding : Type where
  | varStr (val : String) : ExtBinding
  | codeStr (val : String) : ExtBinding
deriving DecidableEq

/-- Embedding of `struct Vm`.  `nativeHolders` is the
`native_callback_holders` map, holding the id of each holder allocation;
`heap` is the set of live holder allocations (`Box::into_raw` results),
`nextId` the fresh-id counter.  `extBindings`, `tlaBindings` and
`jpaths` model the configuration the delegating FFI calls install in
the foreign VM (spec section 6); the import-callback holder is omitted
(no claim depends on it). -/
structure Vm : Type where
  nativeHolders : List (String × Nat)
  heap : List (Nat × NativeCallbackHolder)
  nextId : Nat
  extBindings : List (String × ExtBinding)
  tlaBindings : List (String × ExtBinding)
  jpaths : List String

/-- Embedding of `Vm::new` / `Vm::default`. -/
def Vm.new : Vm := ⟨[], [], 0, [], [], []⟩

/-- Embedding of `Vm::native_callback` (src/lib.rs lines 303-339):
convert the name and every parameter name to C strings (any interior
NUL fails with `NulError` before anything is allocated or registered),
allocate a fresh holder, insert it into the map, and free the holder
the insertion displaced, if any. -/
def Vm.native_callback (vm : Vm) (name : String) (params : List String)
    (callback : NativeCallback) : Except Error Vm :=
  if hasNul name then .error .nulError
  else if params.any hasNul then .error .nulError
  else
    let holder : NativeCallbackHolder := ⟨callback, params.length⟩
    let id := vm.nextId
    let heap1 := (id, holder) :: vm.heap
    let r := alist_insert name id vm.nativeHolders
    let heap2 :=
      match r.2 with
      | some oldId => alist_erase oldId heap1
      | none => heap1
    .ok { vm with nativeHolders := r.1, heap := heap2, nextId := id + 1 }

/-- Embedding of `Vm::ext_var` (src/lib.rs lines 360-365). -/
def Vm.ext_var (vm : Vm) (key val : String) : Except Error Vm :=
  if hasNul key then .error .nulError
  else if hasNul val then .error .nulError
  else .ok { vm with extBindings := (key, ExtBinding.varStr val) :: vm.extBindings }

/-- Embedding of `Vm::ext_code` (src/lib.rs lines 381-388). -/
def Vm.ext_code (vm : Vm) (key val : String) : Except Error Vm :=
  if hasNul key then .error .nulError
  else if hasNul val then .error .nulError
  else .ok { vm with extBindings := (key, ExtBinding.codeStr val) :: vm.extBindings }

/-- Embedding of `Vm::tla_var` (src/lib.rs lines 409-414). -/
def Vm.tla_var (vm : Vm) (key val : String) : Except Error Vm :=
  if hasNul key then .error .nulError
  else if hasNul val then .error .nulError
  else .ok { vm with tlaBindings := (key, ExtBinding.varStr val) :: vm.tlaBindings }

/-- Embedding of `Vm::tla_code` (src/lib.rs lines 430-437). -/
def Vm.tla_code (vm : Vm) (key val : String) : Except Error Vm :=
  if hasNul key then .error .nulError
  else if hasNul val then .error .nulError
  else .ok { vm with tlaBindings := (key, ExtBinding.codeStr val) :: vm.tlaBindings }

/-- Embedding of `Vm::jpath_add` (src/lib.rs lines 445-449). -/
def Vm.jpath_add (vm : Vm) (path : String) : Except Error Vm :=
  if hasNul path then .error .nulError
  else .ok { vm with jpaths := vm.jpaths ++ [path] }

/-- Embedding of `Vm::evaluate_snippet` (src/lib.rs lines 250-275),
with `T` instantiated at `serde_json::Value`.  The external
`jsonnet_evaluate_snippet` call is a parameter returning the output
C string and the error flag; the external serde deserializer is the
parameter `serde_from_str`. -/
def Vm.evaluate_snippet (vm : Vm)
    (jsonnet_evaluate_snippet : Vm → String → String → String × Int)
    (serde_from_str : String → Except String JsonValue)
    (filename code : String) : Except Error JsonValue :=
  if hasNul filename then .error .nulError
  else if hasNul code then .error .nulError
  else
    let r := jsonnet_evaluate_snippet vm filename code
    if r.2 = 0 then
      match serde_from_str r.1 with
      | .ok v => .ok v
      | .error e => .error (.serdeError e)
    else .error (.goJsonnetError r.1)

/-- Embedding of `Vm::fmt_snippet` (src/lib.rs lines 603-622); the
external `jsonnet_fmt_snippet` call is a parameter returning the output
C string and the error flag. -/
def Vm.fmt_snippet (vm : Vm)
    (jsonnet_fmt_snippet : Vm → String → String → String × Int)
    (filename snippet : String) : Except Error String :=
  if hasNul filename then .error .nulError
  else if hasNul snippet then .error .nulError
  else
    let r := jsonnet_fmt_snippet vm filename snippet
    if r.2 = 0 then .ok r.1
    else .error (.goJsonnetError r.1)

/-! ## Well-formedness of the holder map and heap -/

/-- Invariant tying the `native_callback_holders` map to the live
allocations: distinct names, distinct allocation addresses, the
multiset of holder ids held by the map is exactly the multiset of live
allocation ids (so the map leaks nothing and every map entry is live),
and every live id is below the fresh-id counter. -/
def VmWF (vm : Vm) : Prop :=
  (vm.nativeHolders.map Prod.fst).Nodup ∧
  (vm.heap.map Prod.fst).Nodup ∧
  (↑(vm.nativeHolders.map Prod.snd) : Multiset Nat) = ↑(vm.heap.map Prod.fst) ∧
  ∀ i ∈ vm.heap.map Prod.fst, i < vm.nextId

/-! ## Spec-modelled external interpreter behaviours

The go-jsonnet interpreter is not part of this repository; the
behaviours the claims depend on are modelled from the specification. -/

/-- Modelled from the spec: the missing go-jsonnet static check on the
snippet binding a field to the undefined identifier `bar`
(spec section 8 and the repository test `evaluate_snippet_syntax_error`):
evaluation fails and the diagnostic message starts with the filename
and the 1-based position `1:` followed by the column span, and names
the unknown variable. -/
def go_eval_unknown_var (vm : Vm) (filename code : String) : String × Int :=
  (filename ++ ":1:7-10 Unknown variable: bar", 1)

/-- Modelled from the spec: a missing go-jsonnet evaluation (runtime)
failure (spec section 7: EvaluationError, e.g. division by zero),
reported through the same error flag and message channel as static
errors. -/
def go_eval_runtime_err (vm : Vm) (filename code : String) : String × Int :=
  ("RUNTIME ERROR: division by zero. " ++ filename ++ ":1:1", 1)

/-- The serde deserializer argument used where only the failure path of
`evaluate_snippet` is exercised: it is never reached there. -/
def serde_unused (s : String) : Except String JsonValue := Except.error s

/-- Modelled from the spec: evaluation of the code bound by
`ext_code`, needed for the boolean literals only (spec section 8: the
code text `true` evaluates to the JSON boolean true). -/
def eval_literal_code (s : String) : Option JsonValue :=
  if s = "true" then some (JsonValue.bool true)
  else if s = "false" then some (JsonValue.bool false)
  else none

/-- Modelled from the spec: the missing go-jsonnet evaluation of the
snippet binding field `v` to `std.extVar` of the name `v`
(spec section 8): the result is an object whose single field `v` is
the bound literal string for an `ext_var` binding, and the evaluated
code value for an `ext_code` binding; an unbound name fails. -/
def eval_extvar_snippet (vm : Vm) : Option JsonValue :=
  match alist_lookup "v" vm.extBindings with
  | some (ExtBinding.varStr s) =>
      some (JsonValue.obj (.cons "v" (JsonValue.str s) .nil))
  | some (ExtBinding.codeStr s) =>
      (eval_literal_code s).map (fun b => JsonValue.obj (.cons "v" b .nil))
  | none => none

/-- The callback of the `native_callback` doc-test in src/lib.rs: return
the concatenation of the literal `hello ` and the first argument.  The
source unwraps `argv[0].as_str()`, panicking on a non-string; the model
returns `none` there, a case never reached by the claims. -/
def hello_callback : NativeCallback := fun argv =>
  match argv with
  | [JsonValue.str s] => some (JsonValue.str ("hello " ++ s))
  | _ => none

/-- Modelled from the spec: the missing go-jsonnet evaluation of the
snippet that looks up the native function `hello` via `std.native` and
binds field `message` to its application to the string `world`
(spec sections 6 and 8): the interpreter resolves the registered
bridge, calls it with the marshalled argument and a success flag
initialised to zero, and treats a non-1 flag as an evaluation failure
(spec section 5). -/
def eval_native_hello_snippet (vm : Vm) : Option JsonValue :=
  match alist_lookup "hello" vm.nativeHolders with
  | none => none
  | some id =>
    match alist_lookup id vm.heap with
    | none => none
    | some holder =>
      match native_callback_bridge holder [JsonValue.str "world"] 0 with
      | some (result, flag) =>
          if flag = 1 then
            some (JsonValue.obj (.cons "message" result .nil))
          else none
      | none => none

/-! ## Spec-modelled formatter (spec section 4.8)

The Go formatter behind `jsonnet_fmt_snippet` is not in src/.
Following the specification (parse, then deterministically re-render
under fixed options), it is modelled as lexing the source into its
tokens - the maximal runs of non-blank characters - and re-rendering
them canonically with single separating spaces and a trailing
newline. -/

def isBlank (c : Char) : Bool := c = ' ' || c = '\n'

/-- Lex into maximal runs of non-blank characters; `acc` is the
reversed current run. -/
def lexWords : List Char → List Char → List (List Char)
  | [], acc => if acc.isEmpty then [] else [acc.reverse]
  | c :: cs, acc =>
    if isBlank c then
      if acc.isEmpty then lexWords cs [] else acc.reverse :: lexWords cs []
    else lexWords cs (c :: acc)

/-- Canonical rendering: single spaces between tokens. -/
def joinWords : List (List Char) → List Char
  | [] => []
  | [w] => w
  | w :: ws => w ++ ' ' :: joinWords ws

/-- Modelled from the spec: the missing formatter `jsonnet_fmt_snippet`
(spec section 4.8), as canonical re-rendering of the lexed tokens plus
the trailing newline, reported with a zero (success) error flag. -/
def fmt_model (vm : Vm) (filename snippet : String) : String × Int :=
  (String.mk (joinWords (lexWords snippet.data []) ++ [Char.ofNat 10]), 0)

/-! ## Spec-modelled JSON-fragment AST and evaluator (spec sections 3, 4.2, 4.4)

The parser and evaluator are not in src/.  The JSON fragment of the
spec AST (Literal, ArrayLit, ObjectLit with plain visible fields) and
its evaluation are modelled; per spec section 4.2 an object literal
with duplicate plain field names is a static error. -/

mutual

inductive Expr : Type where
  | litNull : Expr
  | litBool (b : Bool) : Expr
  | litNum (n : Int) : Expr
  | litStr (s : String) : Expr
  | arrayLit (xs : ExprList) : Expr
  | objectLit (fs : ExprFields) : Expr

inductive ExprList : Type where
  | nil : ExprList
  | cons (e : Expr) (tl : ExprList) : ExprList

inductive ExprFields : Type where
  | nil : ExprFields
  | cons (k : String) (e : Expr) (tl : ExprFields) : ExprFields

end

mutual

/-- The parse of a JSON document: JSON is a syntactic subset of the
language, so a JSON value reads back as the corresponding literal
expression. -/
def ofJson : JsonValue → Expr
  | .null => .litNull
  | .bool b => .litBool b
  | .num n => .litNum n
  | .str s => .litStr s
  | .arr xs => .arrayLit (ofJsonList xs)
  | .obj fs => .objectLit (ofJsonFields fs)

def ofJsonList : JsonList → ExprList
  | .nil => .nil
  | .cons v tl => .cons (ofJson v) (ofJsonList tl)

def ofJsonFields : JsonFields → ExprFields
  | .nil => .nil
  | .cons k v tl => .cons k (ofJson v) (ofJsonFields tl)

end

def exprFieldKeys : ExprFields → List String
  | .nil => []
  | .cons k _ tl => k :: exprFieldKeys tl

/-- Duplicate-free check on field names (spec section 4.2: duplicate
plain field names are a static error). -/
def keysNodup : List String → Bool
  | [] => true
  | k :: tl => !(tl.contains k) && keysNodup tl

mutual

/-- Modelled from the spec: the missing evaluator on the JSON fragment
(spec section 4.4, with the duplicate-field static error of spec
section 4.2); literals evaluate to themselves, composites evaluate
their components. -/
def evalExpr : Expr → Option JsonValue
  | .litNull => some .null
  | .litBool b => some (.bool b)
  | .litNum n => some (.num n)
  | .litStr s => some (.str s)
  | .arrayLit xs => (evalExprList xs).map .arr
  | .objectLit fs =>
      if keysNodup (exprFieldKeys fs) then (evalExprFields fs).map .obj
      else none

def evalExprList : ExprList → Option JsonList
  | .nil => some .nil
  | .cons e tl =>
      match evalExpr e, evalExprList tl with
      | some v, some vs => some (.cons v vs)
      | _, _ => none

def evalExprFields : ExprFields → Option JsonFields
  | .nil => some .nil
  | .cons k e tl =>
      match evalExpr e, evalExprFields tl with
      | some v, some vs => some (.cons k v vs)
      | _, _ => none

end

def jsonFieldKeys : JsonFields → List String
  | .nil => []
  | .cons k _ tl => k :: jsonFieldKeys tl

mutual

/-- A JSON document all of whose objects, recursively, have pairwise
distinct field names. -/
def jsonNodupKeys : JsonValue → Bool
  | .null => true
  | .bool _ => true
  | .num _ => true
  | .str _ => true
  | .arr xs => jsonNodupKeysList xs
  | .obj fs => keysNodup (jsonFieldKeys fs) && jsonNodupKeysFields fs

def jsonNodupKeysList : JsonList → Bool
  | .nil => true
  | .cons v tl => jsonNodupKeys v && jsonNodupKeysList tl

def jsonNodupKeysFields : JsonFields → Bool
  | .nil => true
  | .cons _ v tl => jsonNodupKeys v && jsonNodupKeysFields tl

end

/-- A valid JSON document with a duplicated object key. -/
def dupKeyJson : JsonValue :=
  JsonValue.obj (.cons "a" (JsonValue.num 1) (.cons "a" (JsonValue.num 2) .nil))

/-- A nested JSON document with pairwise distinct object keys. -/
def sampleJson : JsonValue :=
  JsonValue.obj (.cons "a"
    (JsonValue.arr (.cons (JsonValue.num 1) (.cons (JsonValue.str "x") .nil)))
    (.cons "b" JsonValue.null .nil))

/-- A holder whose callback always fails (returns `None`). -/
def none_callback_holder : NativeCallbackHolder := ⟨fun _ => none, 0⟩

/-- A holder whose callback succeeds with the JSON null. -/
def null_callback_holder : NativeCallbackHolder := ⟨fun _ => some JsonValue.null, 0⟩

/-- A holder whose callback succeeds with a number. -/
def num_callback_holder : NativeCallbackHolder := ⟨fun _ => some (JsonValue.num 7), 0⟩

/-- A holder whose callback returns a string with an interior NUL byte,
on which the conversion back to a foreign value panics. -/
def nul_str_callback_holder : NativeCallbackHolder :=
  ⟨fun _ => some (JsonValue.str "a\x00b"), 0⟩

/-- Modelled from the spec: a missing go-jsonnet formatter parse failure
(spec section 7: ParseError with filename and 1-based position). -/
def go_fmt_static_err (vm : Vm) (filename snippet : String) : String × Int :=
  (filename ++ ":1:1 Expected a value, got end of file", 1)

/-- A well-formed Vm with one registered native callback, holder id 0. -/
def vm_one_holder : Vm :=
  { nativeHolders := [("hello", 0)], heap := [(0, none_callback_holder)],
    nextId := 1, extBindings := [], tlaBindings := [], jpaths := [] }

/-! # Theorems -/

/-! ## Association-list lemmas -/

theorem alist_insert_snd {κ α : Type} [DecidableEq κ] (k : κ) (v : α)
    (l : List (κ × α)) : (alist_insert k v l).2 = alist_lookup k l := by
  induction l with
  | nil => rfl
  | cons p tl ih =>
    by_cases h : p.1 = k <;> simp [alist_insert, alist_lookup, h, ih]

theorem alist_lookup_insert {κ α : Type} [DecidableEq κ] (k : κ) (v : α)
    (l : List (κ × α)) : alist_lookup k (alist_insert k v l).1 = some v := by
  induction l with
  | nil => simp [alist_insert, alist_lookup]
  | cons p tl ih =>
    by_cases h : p.1 = k <;> simp [alist_insert, alist_lookup, h, ih]

theorem alist_lookup_eq_none_iff {κ α : Type} [DecidableEq κ] (k : κ)
    (l : List (κ × α)) : alist_lookup k l = none ↔ k ∉ l.map Prod.fst := by
  induction l with
  | nil => simp [alist_lookup]
  | cons p tl ih =>
    by_cases h : p.1 = k
    · subst h
      simp only [alist_lookup, if_pos rfl, List.map_cons]
      constructor
      · intro hfalse
        exact absurd hfalse (by simp)
      · intro hmem
        exact absurd (List.mem_cons_self _ _) hmem
    · simp only [alist_lookup, if_neg h, List.map_cons, List.mem_cons, ih]
      constructor
      · intro hk hor
        rcases hor with h1 | h1
        · exact h h1.symm
        · exact hk h1
      · intro hk h1
        exact hk (Or.inr h1)

theorem alist_lookup_mem_values {κ α : Type} [DecidableEq κ] {k : κ} {v : α}
    {l : List (κ × α)} (h : alist_lookup k l = some v) :
    v ∈ l.map Prod.snd := by
  induction l with
  | nil => simp [alist_lookup] at h
  | cons p tl ih =>
    by_cases hp : p.1 = k
    · simp [alist_lookup, hp] at h
      simp [h]
    · simp [alist_lookup, hp] at h
      simp [ih h]

theorem alist_insert_keys_present {κ α : Type} [DecidableEq κ] {k : κ} (v : α)
    {l : List (κ × α)} {o : α} (h : alist_lookup k l = some o) :
    (alist_insert k v l).1.map Prod.fst = l.map Prod.fst := by
  induction l with
  | nil => simp [alist_lookup] at h
  | cons p tl ih =>
    by_cases hp : p.1 = k
    · simp [alist_insert, hp]
    · simp [alist_lookup, hp] at h
      simp [alist_insert, hp, ih h]

theorem alist_insert_keys_absent {κ α : Type} [DecidableEq κ] {k : κ} (v : α)
    {l : List (κ × α)} (h : alist_lookup k l = none) :
    (alist_insert k v l).1.map Prod.fst = l.map Prod.fst ++ [k] := by
  induction l with
  | nil => simp [alist_insert]
  | cons p tl ih =>
    by_cases hp : p.1 = k
    · simp [alist_lookup, hp] at h
    · simp [alist_lookup, hp] at h
      simp [alist_insert, hp, ih h]

theorem alist_insert_values_absent {κ α : Type} [DecidableEq κ] {k : κ} (v : α)
    {l : List (κ × α)} (h : alist_lookup k l = none) :
    (alist_insert k v l).1.map Prod.snd = l.map Prod.snd ++ [v] := by
  induction l with
  | nil => simp [alist_insert]
  | cons p tl ih =>
    by_cases hp : p.1 = k
    · simp [alist_lookup, hp] at h
    · simp [alist_lookup, hp] at h
      simp [alist_insert, hp, ih h]

theorem alist_insert_values_present {κ α : Type} [DecidableEq κ] {k : κ} (v : α)
    {l : List (κ × α)} {o : α} (h : alist_lookup k l = some o) :
    (o ::ₘ (↑((alist_insert k v l).1.map Prod.snd) : Multiset α)) =
      v ::ₘ (↑(l.map Prod.snd) : Multiset α) := by
  induction l with
  | nil => simp [alist_lookup] at h
  | cons p tl ih =>
    by_cases hp : p.1 = k
    · simp [alist_lookup, hp] at h
      subst h
      simp [alist_insert, hp, ← Multiset.cons_coe]
      exact Multiset.cons_swap _ _ _
    · simp [alist_lookup, hp] at h
      have ihh := ih h
      simp only [alist_insert, hp, if_false, List.map_cons, ← Multiset.cons_coe]
      rw [Multiset.cons_swap o p.2, ihh, Multiset.cons_swap]

theorem alist_erase_sublist {κ α : Type} [DecidableEq κ] (k : κ)
    (l : List (κ × α)) : List.Sublist (alist_erase k l) l := by
  induction l with
  | nil => simp [alist_erase]
  | cons p tl ih =>
    by_cases h : p.1 = k
    · rw [show alist_erase k (p :: tl) = tl from by simp [alist_erase, h]]
      exact List.Sublist.cons p (List.Sublist.refl tl)
    · rw [show alist_erase k (p :: tl) = p :: alist_erase k tl from by
        simp [alist_erase, h]]
      exact List.Sublist.cons₂ p ih

theorem alist_erase_keys {κ α : Type} [DecidableEq κ] (k : κ)
    (l : List (κ × α)) (h : k ∈ l.map Prod.fst) :
    (k ::ₘ (↑((alist_erase k l).map Prod.fst) : Multiset κ)) =
      ↑(l.map Prod.fst) := by
  induction l with
  | nil => simp at h
  | cons p tl ih =>
    by_cases hp : p.1 = k
    · rw [show alist_erase k (p :: tl) = tl from by simp [alist_erase, hp]]
      rw [List.map_cons, ← Multiset.cons_coe, hp]
    · have hk : k ∈ tl.map Prod.fst := by
        rw [List.map_cons, List.mem_cons] at h
        rcases h with h1 | h1
        · exact absurd h1.symm hp
        · exact h1
      rw [show alist_erase k (p :: tl) = p :: alist_erase k tl from by
        simp [alist_erase, hp]]
      rw [List.map_cons, List.map_cons, ← Multiset.cons_coe, ← Multiset.cons_coe]
      rw [Multiset.cons_swap, ih hk]

theorem alist_erase_lookup_ne {κ α : Type} [DecidableEq κ] {k j : κ}
    (l : List (κ × α)) (h : j ≠ k) :
    alist_lookup j (alist_erase k l) = alist_lookup j l := by
  induction l with
  | nil => rfl
  | cons p tl ih =>
    by_cases hp : p.1 = k
    · have hpj : ¬ p.1 = j := fun hj => h (hj.symm.trans hp)
      rw [show alist_erase k (p :: tl) = tl from by simp [alist_erase, hp]]
      rw [show alist_lookup j (p :: tl) = alist_lookup j tl from by
        simp [alist_lookup, hpj]]
    · rw [show alist_erase k (p :: tl) = p :: alist_erase k tl from by
        simp [alist_erase, hp]]
      by_cases hj : p.1 = j
      · simp [alist_lookup, hj]
      · simp [alist_lookup, hj, ih]

theorem alist_erase_not_mem_keys {κ α : Type} [DecidableEq κ] (k : κ)
    (l : List (κ × α)) (h : (l.map Prod.fst).Nodup) :
    k ∉ (alist_erase k l).map Prod.fst := by
  induction l with
  | nil => simp [alist_erase]
  | cons p tl ih =>
    rw [List.map_cons, List.nodup_cons] at h
    by_cases hp : p.1 = k
    · rw [show alist_erase k (p :: tl) = tl from by simp [alist_erase, hp]]
      exact hp ▸ h.1
    · rw [show alist_erase k (p :: tl) = p :: alist_erase k tl from by
        simp [alist_erase, hp]]
      rw [List.map_cons]
      intro hmem
      rcases List.mem_cons.mp hmem with h1 | h1
      · exact hp h1.symm
      · exact ih h.2 h1

/-! ## C3: composite foreign values are unhandled -/

/-- C3: every foreign JSON value that is an array or an object —
extracting as neither null, bool, number nor string — makes
`from_gojsonnet_value` reach the final panic (modelled as `none`)
instead of returning a serde_json value. -/
theorem c3_composite_extraction_panics (v : JsonnetJsonValue)
    (h : (∃ xs, v = JsonValue.arr xs) ∨ (∃ fs, v = JsonValue.obj fs)) :
    from_gojsonnet_value v = none := by
  rcases h with ⟨xs, rfl⟩ | ⟨fs, rfl⟩ <;> rfl

/-- Witness for C3 at the empty array and the empty object. -/
theorem c3_composite_extraction_panics_witness :
    from_gojsonnet_value (JsonValue.arr JsonList.nil) = none ∧
    from_gojsonnet_value (JsonValue.obj JsonFields.nil) = none :=
  ⟨c3_composite_extraction_panics _ (Or.inl ⟨_, rfl⟩),
   c3_composite_extraction_panics _ (Or.inr ⟨_, rfl⟩)⟩

/-! ## C1: success-flag behaviour of the native callback bridge -/

/-- C1 counterexample: with the success flag entering as 1, a callback
returning `None` leaves the flag at 1 and returns a bare jsonnet null —
exactly the output of a successful callback returning `Some(null)` —
so the bridge does not report the failure through the success flag;
the `None` case is distinguishable only by the sentinel null return
and the flag value the caller happened to initialise. -/
theorem c1_counterexample :
    native_callback_bridge none_callback_holder [] 1 =
      some (JsonValue.null, 1) ∧
    native_callback_bridge none_callback_holder [] 1 =
      native_callback_bridge null_callback_holder [] 1 :=
  ⟨rfl, rfl⟩

/-- C1 (amended): when the callback returns `Some value` and the value
converts — no interior NUL byte in any of its strings or object keys —
the bridge sets the success flag to 1 and returns the converted value;
when the conversion panics the bridge never returns at all; and when
the callback returns `None` the bridge returns a jsonnet null and
leaves the success flag at its incoming value — it never itself writes
a failure value to the flag. -/
theorem c1_bridge_flag (holder : NativeCallbackHolder)
    (argv_c : List JsonnetJsonValue) (argv : List JsonValue) (success : Int)
    (hconv : (argv_c.take holder.argc).mapM from_gojsonnet_value = some argv) :
    (∀ r gv, holder.callback argv = some r →
        from_serde_json_value r = some gv →
        native_callback_bridge holder argv_c success = some (gv, 1)) ∧
    (∀ r, holder.callback argv = some r →
        from_serde_json_value r = none →
        native_callback_bridge holder argv_c success = none) ∧
    (holder.callback argv = none →
        native_callback_bridge holder argv_c success =
          some (JsonValue.null, success)) := by
  have key : native_callback_bridge holder argv_c success =
      match holder.callback argv with
      | some result =>
        match from_serde_json_value result with
        | none => none
        | some gv => some (gv, 1)
      | none => some (jsonnet_json_make_null, success) := by
    unfold native_callback_bridge
    rw [hconv]
  refine ⟨?_, ?_, ?_⟩
  · intro r gv hr hgv
    rw [key]
    simp only [hr, hgv]
  · intro r hr hgv
    rw [key]
    simp only [hr, hgv]
  · intro hn
    rw [key, hn]
    rfl

/-- Witness for C1 (amended) exercising all three branches at concrete
holders, arguments and incoming flag value 5. -/
theorem c1_bridge_flag_witness :
    native_callback_bridge num_callback_holder [] 5 =
      some (JsonValue.num 7, 1) ∧
    native_callback_bridge nul_str_callback_holder [] 5 = none ∧
    native_callback_bridge none_callback_holder [] 5 =
      some (JsonValue.null, 5) :=
  ⟨(c1_bridge_flag num_callback_holder [] [] 5 rfl).1 _ _ rfl rfl,
   (c1_bridge_flag nul_str_callback_holder [] [] 5 rfl).2.1 _ rfl rfl,
   (c1_bridge_flag none_callback_holder [] [] 5 rfl).2.2 rfl⟩

/-! ## C6: ext_var binds literal strings, ext_code binds code -/

/-- C6: after `ext_var` binds `v` to the text `true`, the extVar snippet
evaluates to an object whose field `v` is the string `true`; after
`ext_code` binds the same text, the field is the boolean `true`. -/
theorem c6_ext_var_vs_ext_code :
    (Vm.ext_var Vm.new "v" "true").map eval_extvar_snippet =
      Except.ok (some (JsonValue.obj
        (.cons "v" (JsonValue.str "true") .nil))) ∧
    (Vm.ext_code Vm.new "v" "true").map eval_extvar_snippet =
      Except.ok (some (JsonValue.obj
        (.cons "v" (JsonValue.bool true) .nil))) := by
  constructor <;> rfl

/-! ## C7: registered native function round trip -/

/-- C7: registering the native function `hello` with one parameter and
the concatenating callback, then evaluating the std.native snippet,
yields the object whose field `message` is the string `hello world`;
the value flows through the real embedded holder map, bridge and value
conversions. -/
theorem c7_native_hello :
    (Vm.native_callback Vm.new "hello" ["arg1"] hello_callback).map
        eval_native_hello_snippet =
      Except.ok (some (JsonValue.obj
        (.cons "message" (JsonValue.str "hello world") .nil))) := by
  rfl

/-! ## C2: re-registration supersedes and frees the old holder -/

theorem native_callback_eq (vm : Vm) (name : String) (params : List String)
    (cb : NativeCallback) (hname : hasNul name = false)
    (hparams : params.any hasNul = false) :
    Vm.native_callback vm name params cb = .ok { vm with
      nativeHolders := (alist_insert name vm.nextId vm.nativeHolders).1,
      heap := match alist_lookup name vm.nativeHolders with
        | some oldId => alist_erase oldId
            ((vm.nextId, ⟨cb, params.length⟩) :: vm.heap)
        | none => (vm.nextId, ⟨cb, params.length⟩) :: vm.heap,
      nextId := vm.nextId + 1 } := by
  simp only [Vm.native_callback, hname, hparams, Bool.false_eq_true, if_false,
    alist_insert_snd]

/-- The fresh-id entry at the head of the heap is not among the old live
ids, so the extended key list is duplicate-free. -/
theorem heap_cons_keys_nodup (vm : Vm) (h : NativeCallbackHolder)
    (hhn : (vm.heap.map Prod.fst).Nodup)
    (hbound : ∀ i ∈ vm.heap.map Prod.fst, i < vm.nextId) :
    (((vm.nextId, h) :: vm.heap).map Prod.fst).Nodup := by
  rw [List.map_cons, List.nodup_cons]
  exact ⟨fun hmem => lt_irrefl _ (hbound _ hmem), hhn⟩

/-- C2: registering under an already-registered name supersedes the old
registration — the map afterwards yields the fresh holder id, whose
heap entry holds the new callback — and the old holder is deallocated
exactly once: it was live before the call, it is no longer live after,
and well-formedness (live allocations are exactly the holders the map
holds, each id live at most once) is preserved, so nothing leaks and
nothing is freed twice.  A fresh name simply gains a new live entry. -/
theorem c2_native_callback_supersedes (vm : Vm) (name : String)
    (params : List String) (cb : NativeCallback) (hwf : VmWF vm)
    (hname : hasNul name = false) (hparams : params.any hasNul = false) :
    ∃ vm2, Vm.native_callback vm name params cb = .ok vm2 ∧
      alist_lookup name vm2.nativeHolders = some vm.nextId ∧
      alist_lookup vm.nextId vm2.heap = some ⟨cb, params.length⟩ ∧
      (∀ old, alist_lookup name vm.nativeHolders = some old →
        old ∈ vm.heap.map Prod.fst ∧ old ∉ vm2.heap.map Prod.fst) ∧
      (alist_lookup name vm.nativeHolders = none →
        vm2.heap.map Prod.fst = vm.nextId :: vm.heap.map Prod.fst) ∧
      VmWF vm2 := by
  obtain ⟨hkn, hhn, hmv, hbound⟩ := hwf
  cases ho : alist_lookup name vm.nativeHolders with
  | none =>
    refine ⟨{ vm with
        nativeHolders := (alist_insert name vm.nextId vm.nativeHolders).1,
        heap := (vm.nextId, ⟨cb, params.length⟩) :: vm.heap,
        nextId := vm.nextId + 1 }, ?_, ?_, ?_, ?_, ?_, ?_, ?_, ?_⟩
    · rw [native_callback_eq vm name params cb hname hparams, ho]
    · exact alist_lookup_insert _ _ _
    · simp [alist_lookup]
    · intro old hold
      cases hold
    · intro _
      rw [List.map_cons]
    · rw [alist_insert_keys_absent _ ho, List.nodup_append]
      refine ⟨hkn, by simp, ?_⟩
      intro x hx hx2
      rw [List.mem_singleton] at hx2
      subst hx2
      exact (alist_lookup_eq_none_iff _ _).mp ho hx
    · exact heap_cons_keys_nodup vm _ hhn hbound
    · constructor
      · rw [alist_insert_values_absent _ ho, List.map_cons]
        refine Multiset.coe_eq_coe.mpr ?_
        exact (List.perm_append_singleton _ _).trans
          ((Multiset.coe_eq_coe.mp hmv).cons vm.nextId)
      · intro i hi
        rw [List.map_cons, List.mem_cons] at hi
        rcases hi with hi | hi
        · exact hi ▸ Nat.lt_succ_self _
        · exact Nat.lt_succ_of_lt (hbound _ hi)
  | some old =>
    have hov : old ∈ vm.nativeHolders.map Prod.snd := alist_lookup_mem_values ho
    have hohk : old ∈ vm.heap.map Prod.fst := by
      have h1 : old ∈ (↑(vm.nativeHolders.map Prod.snd) : Multiset Nat) :=
        Multiset.mem_coe.mpr hov
      rw [hmv] at h1
      exact Multiset.mem_coe.mp h1
    have holt : old < vm.nextId := hbound _ hohk
    have hne : vm.nextId ≠ old := fun h => absurd (h ▸ holt) (lt_irrefl _)
    have hfull : old ∈ (((vm.nextId, (⟨cb, params.length⟩ :
        NativeCallbackHolder)) :: vm.heap).map Prod.fst) := by
      rw [List.map_cons]
      exact List.mem_cons_of_mem _ hohk
    have hnodup2 := heap_cons_keys_nodup vm
      (⟨cb, params.length⟩ : NativeCallbackHolder) hhn hbound
    refine ⟨{ vm with
        nativeHolders := (alist_insert name vm.nextId vm.nativeHolders).1,
        heap := alist_erase old
          ((vm.nextId, ⟨cb, params.length⟩) :: vm.heap),
        nextId := vm.nextId + 1 }, ?_, ?_, ?_, ?_, ?_, ?_, ?_, ?_⟩
    · rw [native_callback_eq vm name params cb hname hparams, ho]
    · exact alist_lookup_insert _ _ _
    · rw [alist_erase_lookup_ne _ hne]
      simp [alist_lookup]
    · intro old2 hold2
      cases hold2
      exact ⟨hohk, alist_erase_not_mem_keys old _ hnodup2⟩
    · intro h0
      cases h0
    · rw [alist_insert_keys_present _ ho]
      exact hkn
    · exact List.Nodup.sublist ((alist_erase_sublist old _).map Prod.fst) hnodup2
    · constructor
      · have hvals := alist_insert_values_present vm.nextId ho
        have hheap := alist_erase_keys old _ hfull
        rw [List.map_cons, ← Multiset.cons_coe] at hheap
        refine (Multiset.cons_inj_right old).mp ?_
        rw [hvals, hmv, ← hheap]
      · intro i hi
        have hi2 : i ∈ (((vm.nextId, (⟨cb, params.length⟩ :
            NativeCallbackHolder)) :: vm.heap).map Prod.fst) :=
          ((alist_erase_sublist old _).map Prod.fst).mem hi
        rw [List.map_cons, List.mem_cons] at hi2
        rcases hi2 with hi2 | hi2
        · exact hi2 ▸ Nat.lt_succ_self _
        · exact Nat.lt_succ_of_lt (hbound _ hi2)

/-- Witness for C2 at a one-registration Vm: re-registering the name
`hello` supersedes holder id 0 with holder id 1. -/
theorem c2_native_callback_supersedes_witness :
    ∃ vm2, Vm.native_callback vm_one_holder "hello" ["arg1"]
        hello_callback = .ok vm2 ∧
      alist_lookup "hello" vm2.nativeHolders = some vm_one_holder.nextId ∧
      alist_lookup vm_one_holder.nextId vm2.heap =
        some ⟨hello_callback, ["arg1"].length⟩ ∧
      (∀ old, alist_lookup "hello" vm_one_holder.nativeHolders = some old →
        old ∈ vm_one_holder.heap.map Prod.fst ∧
        old ∉ vm2.heap.map Prod.fst) ∧
      (alist_lookup "hello" vm_one_holder.nativeHolders = none →
        vm2.heap.map Prod.fst =
          vm_one_holder.nextId :: vm_one_holder.heap.map Prod.fst) ∧
      VmWF vm2 :=
  c2_native_callback_supersedes vm_one_holder "hello" ["arg1"] hello_callback
    ⟨by decide, by decide, rfl, by decide⟩ (by decide) (by decide)

/-! ## C4: structure of the error surfaced to the caller -/

/-- C4 counterexample: a static-check failure and a runtime failure
both surface as the GoJsonnetError constructor, whose kind is the same
in the two cases — the returned error carries no kind discriminator
separating syntax errors from runtime/evaluation errors; only the
message text differs.  (The deserializer argument is irrelevant: the
failure path never reaches it.) -/
theorem c4_counterexample :
    Vm.evaluate_snippet Vm.new go_eval_unknown_var serde_unused "a.jsonnet"
        "\x7bfoo: bar\x7d" =
      Except.error (Error.goJsonnetError
        ("a.jsonnet" ++ ":1:7-10 Unknown variable: bar")) ∧
    Vm.evaluate_snippet Vm.new go_eval_runtime_err serde_unused "a.jsonnet"
        "1/0" =
      Except.error (Error.goJsonnetError
        ("RUNTIME ERROR: division by zero. " ++ "a.jsonnet" ++ ":1:1")) ∧
    (Error.goJsonnetError
        ("a.jsonnet" ++ ":1:7-10 Unknown variable: bar")).kind =
      (Error.goJsonnetError
        ("RUNTIME ERROR: division by zero. " ++ "a.jsonnet" ++ ":1:1")).kind := by
  exact ⟨rfl, rfl, rfl⟩

/-- C4 (amended): every failing evaluate_snippet or fmt_snippet call
surfaces as the single structured error GoJsonnetError carrying the
interpreter message verbatim — hence containing the filename and
1-based line:column exactly when the interpreter diagnostic does — and
the only kind information the error carries distinguishes interpreter
errors from NulError and SerdeError, not syntax from runtime
failures. -/
theorem c4_structured_error (vm : Vm)
    (ext : Vm → String → String → String × Int)
    (parse : String → Except String JsonValue) (filename code : String)
    (hf : hasNul filename = false) (hc : hasNul code = false)
    (herr : (ext vm filename code).2 ≠ 0) :
    Vm.evaluate_snippet vm ext parse filename code =
      Except.error (Error.goJsonnetError (ext vm filename code).1) ∧
    (Error.goJsonnetError (ext vm filename code).1).kind =
      ErrorKind.goJsonnet ∧
    ∀ (fmtExt : Vm → String → String → String × Int),
      (fmtExt vm filename code).2 ≠ 0 →
      Vm.fmt_snippet vm fmtExt filename code =
        Except.error (Error.goJsonnetError (fmtExt vm filename code).1) := by
  refine ⟨?_, rfl, ?_⟩
  · simp [Vm.evaluate_snippet, hf, hc, herr]
  · intro fmtExt hfmt
    simp [Vm.fmt_snippet, hf, hc, hfmt]

/-- Witness for C4 (amended) at a failing evaluation and a failing
format call. -/
theorem c4_structured_error_witness :
    Vm.evaluate_snippet Vm.new go_eval_unknown_var serde_unused "b.jsonnet"
        "x" =
      Except.error (Error.goJsonnetError
        (go_eval_unknown_var Vm.new "b.jsonnet" "x").1) ∧
    Vm.fmt_snippet Vm.new go_fmt_static_err "b.jsonnet" "x" =
      Except.error (Error.goJsonnetError
        (go_fmt_static_err Vm.new "b.jsonnet" "x").1) :=
  ⟨(c4_structured_error Vm.new go_eval_unknown_var serde_unused "b.jsonnet"
      "x" (by decide) (by decide) (by decide)).1,
   (c4_structured_error Vm.new go_eval_unknown_var serde_unused "b.jsonnet"
      "x" (by decide) (by decide) (by decide)).2.2 go_fmt_static_err
      (by decide)⟩

/-! ## C5: the unknown-variable diagnostic -/

/-- C5: evaluating the object snippet with the undefined identifier
`bar` returns an error — not a success value — whose message contains
the substring `Unknown variable` and starts with the supplied filename
followed by `:1:`. -/
theorem c5_unknown_variable (filename : String)
    (h : hasNul filename = false) :
    ∃ msg,
      Vm.evaluate_snippet Vm.new go_eval_unknown_var serde_unused filename
          "\x7bfoo: bar\x7d" = Except.error (Error.goJsonnetError msg) ∧
      List.IsPrefix (filename ++ ":1:").data msg.data ∧
      List.IsInfix ("Unknown variable").data msg.data := by
  have hc : hasNul "\x7bfoo: bar\x7d" = false := by decide
  refine ⟨filename ++ ":1:7-10 Unknown variable: bar", ?_, ?_, ?_⟩
  · simp [Vm.evaluate_snippet, h, hc, go_eval_unknown_var]
  · have h1 : List.IsPrefix (":1:").data
        (":1:7-10 Unknown variable: bar").data := by decide
    obtain ⟨t, ht⟩ := h1
    refine ⟨t, ?_⟩
    rw [String.data_append, String.data_append, List.append_assoc]
    exact congrArg (fun l => filename.data ++ l) ht
  · refine ⟨filename.data ++ (":1:7-10 ").data, (": bar").data, ?_⟩
    rw [String.data_append, List.append_assoc, List.append_assoc]
    refine congrArg (fun l => filename.data ++ l) ?_
    decide

/-- Witness for C5 at the filename used by the repository test. -/
theorem c5_unknown_variable_witness :
    ∃ msg,
      Vm.evaluate_snippet Vm.new go_eval_unknown_var serde_unused
          "evaluate_snippet_syntax_error.jsonnet" "\x7bfoo: bar\x7d" =
        Except.error (Error.goJsonnetError msg) ∧
      List.IsPrefix ("evaluate_snippet_syntax_error.jsonnet" ++ ":1:").data
        msg.data ∧
      List.IsInfix ("Unknown variable").data msg.data :=
  c5_unknown_variable "evaluate_snippet_syntax_error.jsonnet" (by decide)

/-! ## C10: interior NUL bytes -/

/-- C10: every API call with an interior NUL byte in a string argument
returns the NulError — uniformly in the external interpreter functions,
which are universally quantified in the failing cases, so the result is
independent of the interpreter: it is not invoked — and calls whose
string arguments are NUL-free never return a NulError. -/
theorem c10_nul_error_handling :
    (∀ (vm : Vm) (ext : Vm → String → String → String × Int)
        (parse : String → Except String JsonValue) (filename code : String),
      (hasNul filename = true ∨ hasNul code = true) →
      Vm.evaluate_snippet vm ext parse filename code =
        Except.error Error.nulError) ∧
    (∀ (vm : Vm) (ext : Vm → String → String → String × Int)
        (parse : String → Except String JsonValue) (filename code : String),
      hasNul filename = false → hasNul code = false →
      Vm.evaluate_snippet vm ext parse filename code ≠
        Except.error Error.nulError) ∧
    (∀ (vm : Vm) (ext : Vm → String → String → String × Int)
        (filename snippet : String),
      (hasNul filename = true ∨ hasNul snippet = true) →
      Vm.fmt_snippet vm ext filename snippet =
        Except.error Error.nulError) ∧
    (∀ (vm : Vm) (ext : Vm → String → String → String × Int)
        (filename snippet : String),
      hasNul filename = false → hasNul snippet = false →
      Vm.fmt_snippet vm ext filename snippet ≠
        Except.error Error.nulError) ∧
    (∀ (vm : Vm) (name : String) (params : List String)
        (cb : NativeCallback),
      (hasNul name = true ∨ params.any hasNul = true) →
      Vm.native_callback vm name params cb = Except.error Error.nulError) ∧
    (∀ (vm : Vm) (name : String) (params : List String)
        (cb : NativeCallback),
      hasNul name = false → params.any hasNul = false →
      Vm.native_callback vm name params cb ≠ Except.error Error.nulError) ∧
    (∀ (vm : Vm) (k v : String), (hasNul k = true ∨ hasNul v = true) →
      Vm.ext_var vm k v = Except.error Error.nulError) ∧
    (∀ (vm : Vm) (k v : String), hasNul k = false → hasNul v = false →
      Vm.ext_var vm k v ≠ Except.error Error.nulError) ∧
    (∀ (vm : Vm) (k v : String), (hasNul k = true ∨ hasNul v = true) →
      Vm.ext_code vm k v = Except.error Error.nulError) ∧
    (∀ (vm : Vm) (k v : String), hasNul k = false → hasNul v = false →
      Vm.ext_code vm k v ≠ Except.error Error.nulError) ∧
    (∀ (vm : Vm) (k v : String), (hasNul k = true ∨ hasNul v = true) →
      Vm.tla_var vm k v = Except.error Error.nulError) ∧
    (∀ (vm : Vm) (k v : String), hasNul k = false → hasNul v = false →
      Vm.tla_var vm k v ≠ Except.error Error.nulError) ∧
    (∀ (vm : Vm) (k v : String), (hasNul k = true ∨ hasNul v = true) →
      Vm.tla_code vm k v = Except.error Error.nulError) ∧
    (∀ (vm : Vm) (k v : String), hasNul k = false → hasNul v = false →
      Vm.tla_code vm k v ≠ Except.error Error.nulError) ∧
    (∀ (vm : Vm) (p : String), hasNul p = true →
      Vm.jpath_add vm p = Except.error Error.nulError) ∧
    (∀ (vm : Vm) (p : String), hasNul p = false →
      Vm.jpath_add vm p ≠ Except.error Error.nulError) := by
  refine ⟨?_, ?_, ?_, ?_, ?_, ?_, ?_, ?_, ?_, ?_, ?_, ?_, ?_, ?_, ?_, ?_⟩
  · intro vm ext parse filename code h
    rcases h with h | h
    · simp [Vm.evaluate_snippet, h]
    · cases hf : hasNul filename <;> simp [Vm.evaluate_snippet, hf, h]
  · intro vm ext parse filename code hf hc
    simp only [Vm.evaluate_snippet, hf, hc, Bool.false_eq_true, if_false]
    split
    · split <;> simp
    · simp
  · intro vm ext filename snippet h
    rcases h with h | h
    · simp [Vm.fmt_snippet, h]
    · cases hf : hasNul filename <;> simp [Vm.fmt_snippet, hf, h]
  · intro vm ext filename snippet hf hs
    simp only [Vm.fmt_snippet, hf, hs, Bool.false_eq_true, if_false]
    split <;> simp
  · intro vm name params cb h
    rcases h with h | h
    · simp [Vm.native_callback, h]
    · cases hn : hasNul name <;> simp [Vm.native_callback, hn, h]
  · intro vm name params cb hn hp
    rw [native_callback_eq vm name params cb hn hp]
    simp
  · intro vm k v h
    rcases h with h | h
    · simp [Vm.ext_var, h]
    · cases hk : hasNul k <;> simp [Vm.ext_var, hk, h]
  · intro vm k v hk hv
    simp [Vm.ext_var, hk, hv]
  · intro vm k v h
    rcases h with h | h
    · simp [Vm.ext_code, h]
    · cases hk : hasNul k <;> simp [Vm.ext_code, hk, h]
  · intro vm k v hk hv
    simp [Vm.ext_code, hk, hv]
  · intro vm k v h
    rcases h with h | h
    · simp [Vm.tla_var, h]
    · cases hk : hasNul k <;> simp [Vm.tla_var, hk, h]
  · intro vm k v hk hv
    simp [Vm.tla_var, hk, hv]
  · intro vm k v h
    rcases h with h | h
    · simp [Vm.tla_code, h]
    · cases hk : hasNul k <;> simp [Vm.tla_code, hk, h]
  · intro vm k v hk hv
    simp [Vm.tla_code, hk, hv]
  · intro vm p h
    simp [Vm.jpath_add, h]
  · intro vm p h
    simp [Vm.jpath_add, h]

/-- Witness for C10: a key containing a NUL byte fails with NulError
and NUL-free calls do not. -/
theorem c10_nul_error_handling_witness :
    Vm.ext_var Vm.new "a\x00b" "v" = Except.error Error.nulError ∧
    Vm.jpath_add Vm.new "lib" ≠ Except.error Error.nulError :=
  ⟨c10_nul_error_handling.2.2.2.2.2.2.1 Vm.new "a\x00b" "v"
      (Or.inl (by decide)),
   c10_nul_error_handling.2.2.2.2.2.2.2.2.2.2.2.2.2.2.2 Vm.new "lib"
      (by decide)⟩

/-! ## Formatter lemmas -/

/-- Every token the lexer produces is a nonempty run of non-blank
characters, provided the accumulator holds no blanks. -/
theorem lexWords_good : ∀ (cs acc : List Char),
    (∀ c ∈ acc, isBlank c = false) →
    ∀ w ∈ lexWords cs acc, w ≠ [] ∧ ∀ c ∈ w, isBlank c = false := by
  intro cs
  induction cs with
  | nil =>
    intro acc hacc w hw
    by_cases he : acc.isEmpty
    · rw [show lexWords [] acc = [] from by simp [lexWords, he]] at hw
      simp at hw
    · rw [show lexWords [] acc = [acc.reverse] from by
        simp [lexWords, he]] at hw
      rw [List.mem_singleton] at hw
      subst hw
      refine ⟨?_, ?_⟩
      · intro h0
        apply he
        rw [List.isEmpty_iff]
        exact List.reverse_eq_nil_iff.mp h0
      · intro c hc
        exact hacc c (List.mem_reverse.mp hc)
  | cons c0 cs ih =>
    intro acc hacc w hw
    rw [lexWords] at hw
    by_cases hb : isBlank c0
    · rw [if_pos hb] at hw
      by_cases he : acc.isEmpty
      · rw [if_pos he] at hw
        exact ih [] (by simp) w hw
      · rw [if_neg he] at hw
        rcases List.mem_cons.mp hw with hw1 | hw1
        · subst hw1
          refine ⟨?_, ?_⟩
          · intro h0
            apply he
            rw [List.isEmpty_iff]
            exact List.reverse_eq_nil_iff.mp h0
          · intro c hc
            exact hacc c (List.mem_reverse.mp hc)
        · exact ih [] (by simp) w hw1
    · rw [if_neg hb] at hw
      refine ih (c0 :: acc) ?_ w hw
      intro c hc
      rcases List.mem_cons.mp hc with rfl | hc2
      · simpa using hb
      · exact hacc c hc2

/-- Lexing skips over a leading run of non-blank characters, moving it
into the accumulator. -/
theorem lexWords_append_nonblank (w : List Char)
    (hw : ∀ c ∈ w, isBlank c = false) :
    ∀ cs acc, lexWords (w ++ cs) acc = lexWords cs (w.reverse ++ acc) := by
  induction w with
  | nil =>
    intro cs acc
    simp
  | cons c w ih =>
    intro cs acc
    have hc : isBlank c = false := hw c (List.mem_cons_self _ _)
    have hw2 : ∀ x ∈ w, isBlank x = false :=
      fun x hx => hw x (List.mem_cons_of_mem _ hx)
    rw [List.cons_append, lexWords, if_neg (by simp [hc])]
    rw [ih hw2 cs (c :: acc), List.reverse_cons, List.append_assoc]
    rfl

/-- Re-lexing a canonical rendering recovers the token list. -/
theorem lexWords_joinWords : ∀ (ws : List (List Char)),
    (∀ w ∈ ws, w ≠ [] ∧ ∀ c ∈ w, isBlank c = false) →
    lexWords (joinWords ws ++ [Char.ofNat 10]) [] = ws := by
  intro ws
  induction ws with
  | nil =>
    intro _
    have hnl : isBlank (Char.ofNat 10) = true := by decide
    simp [joinWords, lexWords, hnl]
  | cons w ws ih =>
    cases ws with
    | nil =>
      intro h
      have hw := h w (List.mem_cons_self _ _)
      have hne : ¬ (w.reverse.isEmpty = true) := by
        intro ht
        exact hw.1 (List.reverse_eq_nil_iff.mp (List.isEmpty_iff.mp ht))
      rw [show joinWords [w] = w from rfl]
      rw [lexWords_append_nonblank w hw.2 [Char.ofNat 10] []]
      rw [List.append_nil, lexWords, if_pos (by decide), if_neg hne]
      rw [List.reverse_reverse]
      rw [show lexWords ([] : List Char) ([] : List Char) = [] from by
        simp [lexWords]]
    | cons w2 ws2 =>
      intro h
      have hw := h w (List.mem_cons_self _ _)
      have h2 : ∀ x ∈ w2 :: ws2, x ≠ [] ∧ ∀ c ∈ x, isBlank c = false :=
        fun x hx => h x (List.mem_cons_of_mem _ hx)
      have hne : ¬ (w.reverse.isEmpty = true) := by
        intro ht
        exact hw.1 (List.reverse_eq_nil_iff.mp (List.isEmpty_iff.mp ht))
      rw [show joinWords (w :: w2 :: ws2) =
        w ++ (' ' :: joinWords (w2 :: ws2)) from rfl]
      rw [List.append_assoc]
      rw [lexWords_append_nonblank w hw.2]
      rw [List.append_nil, List.cons_append, lexWords, if_pos (by decide),
        if_neg hne]
      rw [List.reverse_reverse, ih h2]

/-- Characters of the rendering come from the tokens or are the
separating space. -/
theorem joinWords_chars {c : Char} : ∀ (ws : List (List Char)),
    c ∈ joinWords ws → (∃ w, w ∈ ws ∧ c ∈ w) ∨ c = ' ' := by
  intro ws
  induction ws with
  | nil =>
    intro h
    simp [joinWords] at h
  | cons w ws ih =>
    cases ws with
    | nil =>
      intro h
      rw [show joinWords [w] = w from rfl] at h
      exact Or.inl ⟨w, List.mem_cons_self _ _, h⟩
    | cons w2 ws2 =>
      intro h
      rw [show joinWords (w :: w2 :: ws2) =
        w ++ (' ' :: joinWords (w2 :: ws2)) from rfl] at h
      rcases List.mem_append.mp h with h1 | h1
      · exact Or.inl ⟨w, List.mem_cons_self _ _, h1⟩
      · rcases List.mem_cons.mp h1 with rfl | h2
        · exact Or.inr rfl
        · rcases ih h2 with ⟨w3, hw3, hc3⟩ | hsp
          · exact Or.inl ⟨w3, List.mem_cons_of_mem _ hw3, hc3⟩
          · exact Or.inr hsp

/-- Characters of each token come from the lexed text or the
accumulator. -/
theorem lexWords_chars {c : Char} : ∀ (cs acc w : List Char),
    w ∈ lexWords cs acc → c ∈ w → c ∈ cs ∨ c ∈ acc := by
  intro cs
  induction cs with
  | nil =>
    intro acc w hw hc
    by_cases he : acc.isEmpty
    · rw [show lexWords [] acc = [] from by simp [lexWords, he]] at hw
      simp at hw
    · rw [show lexWords [] acc = [acc.reverse] from by
        simp [lexWords, he]] at hw
      rw [List.mem_singleton] at hw
      subst hw
      exact Or.inr (List.mem_reverse.mp hc)
  | cons c0 cs ih =>
    intro acc w hw hc
    rw [lexWords] at hw
    by_cases hb : isBlank c0
    · rw [if_pos hb] at hw
      by_cases he : acc.isEmpty
      · rw [if_pos he] at hw
        rcases ih [] w hw hc with h1 | h1
        · exact Or.inl (List.mem_cons_of_mem _ h1)
        · simp at h1
      · rw [if_neg he] at hw
        rcases List.mem_cons.mp hw with rfl | hw2
        · exact Or.inr (List.mem_reverse.mp hc)
        · rcases ih [] w hw2 hc with h1 | h1
          · exact Or.inl (List.mem_cons_of_mem _ h1)
          · simp at h1
    · rw [if_neg hb] at hw
      rcases ih (c0 :: acc) w hw hc with h1 | h1
      · exact Or.inl (List.mem_cons_of_mem _ h1)
      · rcases List.mem_cons.mp h1 with rfl | h2
        · exact Or.inl (List.mem_cons_self _ _)
        · exact Or.inr h2

/-- The modelled formatter introduces no NUL bytes. -/
theorem fmt_model_no_nul (vm : Vm) (filename s : String)
    (hs : hasNul s = false) :
    hasNul (fmt_model vm filename s).1 = false := by
  have hs2 : ¬ (nulChar ∈ s.data) := by simpa [hasNul] using hs
  rw [hasNul, decide_eq_false_iff_not]
  intro hmem
  rw [show ((fmt_model vm filename s).1).data =
    joinWords (lexWords s.data []) ++ [Char.ofNat 10] from rfl] at hmem
  rcases List.mem_append.mp hmem with h1 | h1
  · rcases joinWords_chars _ h1 with ⟨w, hw, hc⟩ | hsp
    · rcases lexWords_chars s.data [] w hw hc with h2 | h2
      · exact hs2 h2
      · simp at h2
    · exact absurd hsp (by decide)
  · rw [List.mem_singleton] at h1
    exact absurd h1 (by decide)

/-! ## C8: idempotence of formatting -/

/-- C8: with the spec-modelled formatter behind `jsonnet_fmt_snippet`,
a successful fmt_snippet is idempotent: applying fmt_snippet to its own
output returns the very same string. -/
theorem c8_fmt_idempotent (vm : Vm) (filename src : String)
    (hf : hasNul filename = false) (hs : hasNul src = false) :
    ∃ out, Vm.fmt_snippet vm fmt_model filename src = Except.ok out ∧
      Vm.fmt_snippet vm fmt_model filename out = Except.ok out := by
  refine ⟨(fmt_model vm filename src).1, ?_, ?_⟩
  · simp [Vm.fmt_snippet, hf, hs, fmt_model]
  · have hout : hasNul (fmt_model vm filename src).1 = false :=
      fmt_model_no_nul vm filename src hs
    have hround : lexWords (joinWords (lexWords src.data []) ++
        [Char.ofNat 10]) [] = lexWords src.data [] :=
      lexWords_joinWords _ (lexWords_good src.data [] (by simp))
    simp only [Vm.fmt_snippet, hf, hout, Bool.false_eq_true, if_false]
    simp [fmt_model, hround]

/-- Witness for C8 at a concrete snippet. -/
theorem c8_fmt_idempotent_witness :
    ∃ out, Vm.fmt_snippet Vm.new fmt_model "f.jsonnet" "a  b" =
        Except.ok out ∧
      Vm.fmt_snippet Vm.new fmt_model "f.jsonnet" out = Except.ok out :=
  c8_fmt_idempotent Vm.new "f.jsonnet" "a  b" (by decide) (by decide)

/-! ## JSON-identity lemmas -/

theorem exprFieldKeys_ofJsonFields : ∀ (fs : JsonFields),
    exprFieldKeys (ofJsonFields fs) = jsonFieldKeys fs
  | .nil => rfl
  | .cons k v tl => by
      rw [ofJsonFields, exprFieldKeys, jsonFieldKeys,
        exprFieldKeys_ofJsonFields tl]

mutual

theorem evalExpr_ofJson : ∀ (v : JsonValue), jsonNodupKeys v = true →
    evalExpr (ofJson v) = some v
  | .null, _ => rfl
  | .bool b, _ => rfl
  | .num n, _ => rfl
  | .str s, _ => rfl
  | .arr xs, h => by
      rw [jsonNodupKeys] at h
      rw [ofJson, evalExpr, evalExprList_ofJsonList xs h]
      rfl
  | .obj fs, h => by
      rw [jsonNodupKeys, Bool.and_eq_true] at h
      rw [ofJson, evalExpr, exprFieldKeys_ofJsonFields, if_pos h.1,
        evalExprFields_ofJsonFields fs h.2]
      rfl

theorem evalExprList_ofJsonList : ∀ (xs : JsonList),
    jsonNodupKeysList xs = true → evalExprList (ofJsonList xs) = some xs
  | .nil, _ => rfl
  | .cons v tl, h => by
      rw [jsonNodupKeysList, Bool.and_eq_true] at h
      rw [ofJsonList, evalExprList, evalExpr_ofJson v h.1,
        evalExprList_ofJsonList tl h.2]

theorem evalExprFields_ofJsonFields : ∀ (fs : JsonFields),
    jsonNodupKeysFields fs = true →
    evalExprFields (ofJsonFields fs) = some fs
  | .nil, _ => rfl
  | .cons k v tl, h => by
      rw [jsonNodupKeysFields, Bool.and_eq_true] at h
      rw [ofJsonFields, evalExprFields, evalExpr_ofJson v h.1,
        evalExprFields_ofJsonFields tl h.2]

end

/-! ## C9: evaluation is the identity on JSON -/

/-- C9 counterexample: the JSON document with a duplicated object key
is valid JSON, but its parse is an object literal with duplicate plain
field names, a static error (spec section 4.2) — evaluation fails
instead of returning the document, so evaluation is not the identity on
every valid JSON document. -/
theorem c9_counterexample :
    evalExpr (ofJson dupKeyJson) = none ∧
    evalExpr (ofJson dupKeyJson) ≠ some dupKeyJson := by
  refine ⟨rfl, ?_⟩
  rw [show evalExpr (ofJson dupKeyJson) = none from rfl]
  simp

/-- C9 (amended): for every valid JSON document all of whose objects
have pairwise distinct field names, evaluation is the identity: the
document parses as a literal expression (JSON is a syntactic subset of
the language) and evaluates to itself. -/
theorem c9_json_identity (v : JsonValue) (h : jsonNodupKeys v = true) :
    evalExpr (ofJson v) = some v :=
  evalExpr_ofJson v h

/-- Witness for C9 (amended) at a nested document. -/
theorem c9_json_identity_witness :
    evalExpr (ofJson sampleJson) = some sampleJson :=
  c9_json_identity sampleJson (by rfl)

end GojsonnetRs
